import Mathlib

/-!
Verification of the SKY-SQL flight-delay exploration tool.

The definitions below are a shallow embedding of the aggregation logic in
`plotting.py`, the airport-index construction in `main.py`, and the query
execution wrapper in `data.py`.  Python dictionary values coming out of the
SQLite rows are modelled by the `Value` type (`None`, integers, strings),
Python dictionaries keyed by airline / hour / route are modelled by
insertion-ordered association lists, and Python float division on counts is
modelled by exact rational arithmetic.  A Python exception escaping a
function is modelled by `Option`/`Except`: `none` (`Except.error`) means the
corresponding Python call raised.
-/

namespace SkySql

/-- A Python value as it appears in a row produced by the data layer:
`None`, an integer, or a string. -/
inductive Value where
  | vnone : Value
  | vint : Int → Value
  | vstr : String → Value
deriving DecidableEq

/-- Python truthiness for `Value`: `None`, `0` and `""` are falsy. -/
def Value.isTruthy : Value → Bool
  | .vnone => false
  | .vint n => decide (n ≠ 0)
  | .vstr s => decide (s ≠ "")

/-- Numeric value of a list of decimal digit characters. -/
def digitsVal (cs : List Char) : Nat :=
  cs.foldl (fun a c => a * 10 + (c.toNat - 48)) 0

/-- Surrounding whitespace stripped from a character list, as Python `int`
does to its string argument before parsing. -/
def trimChars (cs : List Char) : List Char :=
  ((cs.dropWhile Char.isWhitespace).reverse.dropWhile Char.isWhitespace).reverse

/-- Python `int(s)` on a string: strip surrounding whitespace, allow one
optional sign, then require a non-empty run of decimal digits; anything else
raises `ValueError`, modelled by `none`. -/
def pyParseInt (s : String) : Option Int :=
  let cs := trimChars s.toList
  match cs with
  | [] => none
  | c :: rest =>
    if c = '-' then
      if rest ≠ [] ∧ rest.all Char.isDigit then some (-(digitsVal rest : Int)) else none
    else if c = '+' then
      if rest ≠ [] ∧ rest.all Char.isDigit then some ((digitsVal rest : Int)) else none
    else if cs.all Char.isDigit then some ((digitsVal cs : Int)) else none

/-- Python `int(v)` on a `Value`: an `int` is returned unchanged, a string is
parsed, `None` raises `TypeError` (modelled by `none`). -/
def pyInt : Value → Option Int
  | .vnone => none
  | .vint n => some n
  | .vstr s => pyParseInt s

/-- `int(result[DELAY]) if result[DELAY] else 0` from `plotting.py`:
falsy values are normalized to `0`, truthy values go through `int(...)`,
which may raise (`none`). -/
def delayValue (v : Value) : Option Int :=
  if v.isTruthy then pyInt v else some 0

/-- A flight record as consumed by the plotting routines: the fields of the
row dictionary that the aggregations read. -/
structure FlightRecord where
  AIRLINE : String
  ORIGIN_AIRPORT : String
  DESTINATION_AIRPORT : String
  DEPARTURE_TIME : Value
  DELAY : Value
deriving DecidableEq

/-- The per-group accumulator `{'total': ..., 'delayed': ...}`. -/
structure DelayTally where
  total : Nat
  delayed : Nat
deriving DecidableEq

/-- One record counted into a tally: `total` always increments, `delayed`
increments exactly when the record's delay is strictly positive. -/
def bumpTally (d : Int) (t : DelayTally) : DelayTally :=
  ⟨t.total + 1, if 0 < d then t.delayed + 1 else t.delayed⟩

/-- `key in dict` on an insertion-ordered association list. -/
def dictContains {K : Type} [DecidableEq K] (m : List (K × DelayTally)) (k : K) : Bool :=
  m.any (fun p => decide (p.1 = k))

/-- In-place update `dict[k] = f dict[k]` on an association list: every entry
whose key is `k` is rewritten, the rest are untouched. -/
def dictModify {K : Type} [DecidableEq K] (m : List (K × DelayTally)) (k : K)
    (f : DelayTally → DelayTally) : List (K × DelayTally) :=
  m.map (fun p => if p.1 = k then (p.1, f p.2) else p)

/-- `dict[k]` lookup (first entry with key `k`; the callers only read keys
that are present, so the default is never observed). -/
def dictGet {K : Type} [DecidableEq K] (m : List (K × DelayTally)) (k : K) : DelayTally :=
  match m.find? (fun p => decide (p.1 = k)) with
  | some p => p.2
  | none => ⟨0, 0⟩

/-- The shared counting step of `plot_delayed_flights_by_airline` and the two
route aggregations: create the group with a zero tally when absent, then
increment `total` and conditionally `delayed`. -/
def countRecord {K : Type} [DecidableEq K] (m : List (K × DelayTally)) (k : K)
    (d : Int) : List (K × DelayTally) :=
  let m2 := if dictContains m k then m else m ++ [(k, ⟨0, 0⟩)]
  dictModify m2 k (bumpTally d)

/-- The aggregation loop shared by the by-airline and by-route tallies:
for each record, compute the delay (a raise aborts the whole pass, `none`),
then count the record into its group. -/
def tallyLoop {K : Type} [DecidableEq K] (keyFn : FlightRecord → K) :
    List (K × DelayTally) → List FlightRecord → Option (List (K × DelayTally))
  | acc, [] => some acc
  | acc, r :: rs =>
    match delayValue r.DELAY with
    | none => none
    | some d => tallyLoop keyFn (countRecord acc (keyFn r) d) rs

/-- The `airline_delays` dictionary built by `plot_delayed_flights_by_airline`. -/
def airline_delays (rs : List FlightRecord) : Option (List (String × DelayTally)) :=
  tallyLoop (fun r => r.AIRLINE) [] rs

/-- The `route_delays` dictionary built identically by `plot_heatmap_routes`
and `plot_delayed_flights_map`, keyed by the ordered pair
`(ORIGIN_AIRPORT, DESTINATION_AIRPORT)`. -/
def route_delays (rs : List FlightRecord) : Option (List ((String × String) × DelayTally)) :=
  tallyLoop (fun r => (r.ORIGIN_AIRPORT, r.DESTINATION_AIRPORT)) [] rs

/-- The percentage list of `plot_delayed_flights_by_airline`, paired with its
group key: `delayed / total * 100` in exact rational arithmetic. -/
def airlinePercentages (rs : List FlightRecord) : Option (List (String × ℚ)) :=
  (airline_delays rs).map
    (fun m => m.map (fun p => (p.1, (p.2.delayed : ℚ) / (p.2.total : ℚ) * 100)))

/-- The per-route percentages of `plot_heatmap_routes`. -/
def heatmap_routes (rs : List FlightRecord) : Option (List ((String × String) × ℚ)) :=
  (route_delays rs).map
    (fun m => m.map (fun p => (p.1, (p.2.delayed : ℚ) / (p.2.total : ℚ) * 100)))

/-- `int(departure_time[:2])` guarded by `try`: slicing a non-string raises
`TypeError` and a non-numeric slice raises `ValueError`, both of which the
handler turns into a skip, modelled by `none`. -/
def hourKey : Value → Option Int
  | .vstr s => pyParseInt (s.take 2)
  | _ => none

/-- `True` exactly when the by-hour loop skips the record: the hour failed to
parse, or parsed outside `0..23`. -/
def hourSkip : Option Int → Bool
  | none => true
  | some h => decide (h < 0) || decide (23 < h)

/-- `hour_delays` initial dictionary: every hour `0..23` mapped to a zero
tally. -/
def hour_delays_init : List (Int × DelayTally) :=
  (List.range 24).map (fun h => ((h : Int), ⟨0, 0⟩))

/-- The loop of `plot_delayed_flights_by_hour`: the delay is computed first
(a raise aborts the pass), then the hour is parsed; parse failures and
out-of-range hours skip the record, otherwise the hour's tally is bumped. -/
def hour_loop : List (Int × DelayTally) → List FlightRecord → Option (List (Int × DelayTally))
  | acc, [] => some acc
  | acc, r :: rs =>
    match delayValue r.DELAY with
    | none => none
    | some d =>
      match hourKey r.DEPARTURE_TIME with
      | none => hour_loop acc rs
      | some h =>
        if h < 0 ∨ 23 < h then hour_loop acc rs
        else hour_loop (dictModify acc h (bumpTally d)) rs

/-- The `hour_delays` dictionary of `plot_delayed_flights_by_hour`. -/
def hour_delays (rs : List FlightRecord) : Option (List (Int × DelayTally)) :=
  hour_loop hour_delays_init rs

/-- The percentages of `plot_delayed_flights_by_hour`, paired with the hour:
`delayed / total * 100` when `total > 0`, else `0`. -/
def hourPercentages (rs : List FlightRecord) : Option (List (Int × ℚ)) :=
  (hour_delays rs).map (fun m =>
    (List.range 24).map (fun h =>
      ((h : Int),
        if 0 < (dictGet m (h : Int)).total then
          ((dictGet m (h : Int)).delayed : ℚ) / ((dictGet m (h : Int)).total : ℚ) * 100
        else 0)))

/-- `get_delay_color` from `plot_delayed_flights_map`: the ratio classifier,
thresholds `0.2` and `0.4`. -/
def get_delay_color (delay_percentage : ℚ) : String :=
  if delay_percentage < 0.2 then "green"
  else if delay_percentage < 0.4 then "yellow"
  else "red"

/-- The feature-group selection in `plot_delayed_flights_map`: the same two
thresholds partition routes into the three named display layers. -/
def delay_group (delay_percentage : ℚ) : String :=
  if delay_percentage < 0.2 then "Low Delay"
  else if delay_percentage < 0.4 then "Medium Delay"
  else "High Delay"

/-- One entry of the airport location index built by
`get_airports_data` in `main.py` (records with missing coordinates were
dropped before indexing). -/
structure AirportLoc where
  iata : String
  latitude : ℚ
  longitude : ℚ
deriving DecidableEq

/-- `code in airports.index`. -/
def indexContains (aps : List AirportLoc) (code : String) : Bool :=
  aps.any (fun a => decide (a.iata = code))

/-- `[airports.loc[code].latitude, airports.loc[code].longitude]`; only read
behind an `indexContains` guard, so the default is never observed. -/
def airportCoords (aps : List AirportLoc) (code : String) : ℚ × ℚ :=
  match aps.find? (fun a => decide (a.iata = code)) with
  | some a => (a.latitude, a.longitude)
  | none => (0, 0)

/-- One polyline drawn by `plot_delayed_flights_map`: the route, its endpoint
coordinates, its color, and the display layer it is added to. -/
structure MapPolyline where
  route : String × String
  originCoords : ℚ × ℚ
  destinationCoords : ℚ × ℚ
  color : String
  group : String
deriving DecidableEq

/-- The route loop of `plot_delayed_flights_map`: each tallied route whose two
endpoint codes both resolve in the airport index yields a polyline colored
and grouped by its delay ratio; unresolved routes are silently dropped. -/
def plot_map_polylines (rs : List FlightRecord) (aps : List AirportLoc) :
    Option (List MapPolyline) :=
  (route_delays rs).map (fun m =>
    m.filterMap (fun p =>
      if indexContains aps p.1.1 && indexContains aps p.1.2 then
        some ⟨p.1, airportCoords aps p.1.1, airportCoords aps p.1.2,
              get_delay_color ((p.2.delayed : ℚ) / (p.2.total : ℚ)),
              delay_group ((p.2.delayed : ℚ) / (p.2.total : ℚ))⟩
      else none))

/-- Outcome of `connection.execute` in `FlightData._execute_query`: either a
result set (its column keys and its rows) or a raised `SQLAlchemyError`. -/
inductive QueryOutcome where
  | success : List String → List (List Value) → QueryOutcome
  | sqlError : String → QueryOutcome

/-- The `try` body of `_execute_query`: on success the rows are normalized to
dictionaries via `dict(zip(keys, row))`; a data-layer failure raises. -/
def connectionExecute : QueryOutcome → Except String (List (List (String × Value)))
  | .success keys rows => Except.ok (rows.map (fun row => List.zip keys row))
  | .sqlError e => Except.error e

/-- `FlightData._execute_query`: the raised `SQLAlchemyError` is caught,
logged, and replaced by the empty list; a successful execution returns the
normalized records. -/
def _execute_query (o : QueryOutcome) : List (List (String × Value)) :=
  match connectionExecute o with
  | .ok recs => recs
  | .error _ => []

/-! ### Association-list dictionary lemmas -/

lemma mem_dictModify {K : Type} [DecidableEq K] {m : List (K × DelayTally)} {k : K}
    {f : DelayTally → DelayTally} {p : K × DelayTally} (hp : p ∈ dictModify m k f) :
    ∃ q ∈ m, (¬q.1 = k ∧ p = q) ∨ (q.1 = k ∧ p = (q.1, f q.2)) := by
  simp only [dictModify, List.mem_map] at hp
  obtain ⟨q, hq, hpq⟩ := hp
  refine ⟨q, hq, ?_⟩
  by_cases h : q.1 = k
  · exact Or.inr ⟨h, by rw [← hpq, if_pos h]⟩
  · exact Or.inl ⟨h, by rw [← hpq, if_neg h]⟩

lemma dictModify_keys {K : Type} [DecidableEq K] (m : List (K × DelayTally)) (k : K)
    (f : DelayTally → DelayTally) :
    (dictModify m k f).map Prod.fst = m.map Prod.fst := by
  simp only [dictModify, List.map_map]
  apply List.map_congr_left
  intro p _
  by_cases h : p.1 = k <;> simp [h]

lemma dictContains_cons {K : Type} [DecidableEq K] (a : K × DelayTally)
    (tl : List (K × DelayTally)) (k : K) :
    dictContains (a :: tl) k = (decide (a.1 = k) || dictContains tl k) := by
  simp [dictContains]

lemma dictGet_not_contains {K : Type} [DecidableEq K] {m : List (K × DelayTally)} {k : K}
    (h : dictContains m k = false) : dictGet m k = ⟨0, 0⟩ := by
  unfold dictGet
  cases hf : m.find? (fun p => decide (p.1 = k)) with
  | none => rfl
  | some p =>
    exfalso
    have hmem := List.mem_of_find?_eq_some hf
    have hpk := List.find?_some hf
    have : dictContains m k = true := by
      simp only [dictContains, List.any_eq_true]
      exact ⟨p, hmem, hpk⟩
    rw [this] at h
    exact Bool.noConfusion h

lemma dictGet_dictModify {K : Type} [DecidableEq K] {m : List (K × DelayTally)} {k : K}
    {f : DelayTally → DelayTally} (h : dictContains m k = true) :
    dictGet (dictModify m k f) k = f (dictGet m k) := by
  induction m with
  | nil => simp [dictContains] at h
  | cons a tl ih =>
    by_cases hak : a.1 = k
    · simp [dictModify, dictGet, List.find?_cons, hak]
    · have htl : dictContains tl k = true := by
        rw [dictContains_cons] at h
        simpa [hak] using h
      have hrec := ih htl
      simp only [dictModify, List.map_cons, if_neg hak] at *
      simp only [dictGet, List.find?_cons, decide_eq_true_eq, if_neg hak, hak] at *
      simpa [hak] using hrec

lemma dictModify_append_singleton {K : Type} [DecidableEq K] (m : List (K × DelayTally))
    (k : K) (f : DelayTally → DelayTally) (t : DelayTally) :
    dictModify (m ++ [(k, t)]) k f = dictModify m k f ++ [(k, f t)] := by
  simp [dictModify]

lemma find?_append_right {K : Type} [DecidableEq K] {m : List (K × DelayTally)} {k : K}
    (h : dictContains m k = false) (l : List (K × DelayTally)) :
    (m ++ l).find? (fun p => decide (p.1 = k)) = l.find? (fun p => decide (p.1 = k)) := by
  induction m with
  | nil => rfl
  | cons a tl ih =>
    rw [dictContains_cons] at h
    have ha : ¬a.1 = k := by simpa using (Bool.or_eq_false_iff.mp h).1
    have htl := (Bool.or_eq_false_iff.mp h).2
    rw [List.cons_append, List.find?_cons_of_neg _ (by simpa using ha)]
    exact ih htl

lemma dictModify_not_contains {K : Type} [DecidableEq K] {m : List (K × DelayTally)} {k : K}
    (h : dictContains m k = false) (f : DelayTally → DelayTally) :
    dictModify m k f = m := by
  induction m with
  | nil => rfl
  | cons a tl ih =>
    rw [dictContains_cons] at h
    have ha : ¬a.1 = k := by simpa using (Bool.or_eq_false_iff.mp h).1
    have htl := (Bool.or_eq_false_iff.mp h).2
    simp only [dictModify, List.map_cons, if_neg ha]
    rw [show List.map (fun p => if p.1 = k then (p.1, f p.2) else p) tl = dictModify tl k f from rfl,
      ih htl]

/-- The counting step read back at the record's own key: `total` goes up by
one and `delayed` goes up exactly on a positive delay, whether or not the
group already existed. -/
lemma dictGet_countRecord {K : Type} [DecidableEq K] (m : List (K × DelayTally)) (k : K)
    (d : Int) : dictGet (countRecord m k d) k = bumpTally d (dictGet m k) := by
  unfold countRecord
  by_cases hc : dictContains m k
  · rw [if_pos hc]
    exact dictGet_dictModify hc
  · rw [if_neg hc]
    have hc2 : dictContains m k = false := by
      cases h : dictContains m k
      · rfl
      · exact absurd h hc
    rw [dictModify_append_singleton, dictModify_not_contains hc2, dictGet_not_contains hc2]
    unfold dictGet
    rw [find?_append_right hc2]
    simp

/-! ### Invariants of the aggregation loops -/

lemma countRecord_forall {K : Type} [DecidableEq K] {m : List (K × DelayTally)} {k : K}
    {d : Int} (P : DelayTally → Prop) (hm : ∀ p ∈ m, P p.2)
    (hb : ∀ t, P t → P (bumpTally d t)) (h0 : P (bumpTally d ⟨0, 0⟩)) :
    ∀ p ∈ countRecord m k d, P p.2 := by
  intro p hp
  unfold countRecord at hp
  obtain ⟨q, hq, hcase⟩ := mem_dictModify hp
  have hqm : q ∈ m ∨ q = (k, (⟨0, 0⟩ : DelayTally)) := by
    by_cases hc : dictContains m k
    · rw [if_pos hc] at hq
      exact Or.inl hq
    · rw [if_neg hc] at hq
      rcases List.mem_append.mp hq with h1 | h1
      · exact Or.inl h1
      · exact Or.inr (List.mem_singleton.mp h1)
  rcases hcase with ⟨hne, hpq⟩ | ⟨heq, hpq⟩
  · rw [hpq]
    rcases hqm with hmem | hq0
    · exact hm q hmem
    · exact absurd (by rw [hq0]) hne
  · rw [hpq]
    rcases hqm with hmem | hq0
    · exact hb q.2 (hm q hmem)
    · rw [hq0]
      exact h0

lemma tallyLoop_forall {K : Type} [DecidableEq K] (keyFn : FlightRecord → K)
    (P : DelayTally → Prop) (hb : ∀ d t, P t → P (bumpTally d t))
    (h0 : ∀ d : Int, P (bumpTally d ⟨0, 0⟩)) :
    ∀ (rs : List FlightRecord) (acc m : List (K × DelayTally)),
      (∀ p ∈ acc, P p.2) → tallyLoop keyFn acc rs = some m → ∀ p ∈ m, P p.2 := by
  intro rs
  induction rs with
  | nil =>
    intro acc m hacc hm
    rw [show tallyLoop keyFn acc [] = some acc from rfl] at hm
    obtain rfl := Option.some_injective _ hm
    exact hacc
  | cons r rs ih =>
    intro acc m hacc hm
    cases hd : delayValue r.DELAY with
    | none =>
      rw [show tallyLoop keyFn acc (r :: rs) =
        (match delayValue r.DELAY with
          | none => none
          | some d => tallyLoop keyFn (countRecord acc (keyFn r) d) rs) from rfl, hd] at hm
      exact Option.noConfusion hm
    | some d =>
      rw [show tallyLoop keyFn acc (r :: rs) =
        (match delayValue r.DELAY with
          | none => none
          | some d => tallyLoop keyFn (countRecord acc (keyFn r) d) rs) from rfl, hd] at hm
      exact ih _ m (countRecord_forall P hacc (hb d) (h0 d)) hm

lemma mem_dictModify_forall {K : Type} [DecidableEq K] {m : List (K × DelayTally)} {k : K}
    {d : Int} (P : DelayTally → Prop) (hm : ∀ p ∈ m, P p.2)
    (hb : ∀ t, P t → P (bumpTally d t)) :
    ∀ p ∈ dictModify m k (bumpTally d), P p.2 := by
  intro p hp
  obtain ⟨q, hq, hcase⟩ := mem_dictModify hp
  rcases hcase with ⟨_, hpq⟩ | ⟨_, hpq⟩
  · rw [hpq]
    exact hm q hq
  · rw [hpq]
    exact hb q.2 (hm q hq)

lemma hour_loop_cons (acc : List (Int × DelayTally)) (r : FlightRecord)
    (rs : List FlightRecord) :
    hour_loop acc (r :: rs) =
      (match delayValue r.DELAY with
        | none => none
        | some d =>
          match hourKey r.DEPARTURE_TIME with
          | none => hour_loop acc rs
          | some h =>
            if h < 0 ∨ 23 < h then hour_loop acc rs
            else hour_loop (dictModify acc h (bumpTally d)) rs) := rfl

lemma hour_loop_forall (P : DelayTally → Prop) (hb : ∀ d t, P t → P (bumpTally d t)) :
    ∀ (rs : List FlightRecord) (acc m : List (Int × DelayTally)),
      (∀ p ∈ acc, P p.2) → hour_loop acc rs = some m → ∀ p ∈ m, P p.2 := by
  intro rs
  induction rs with
  | nil =>
    intro acc m hacc hm
    rw [show hour_loop acc [] = some acc from rfl] at hm
    obtain rfl := Option.some_injective _ hm
    exact hacc
  | cons r rs ih =>
    intro acc m hacc hm
    cases hd : delayValue r.DELAY with
    | none =>
      simp only [hour_loop_cons, hd] at hm
      exact Option.noConfusion hm
    | some d =>
      cases hk : hourKey r.DEPARTURE_TIME with
      | none =>
        simp only [hour_loop_cons, hd, hk] at hm
        exact ih acc m hacc hm
      | some h =>
        simp only [hour_loop_cons, hd, hk] at hm
        by_cases hr : h < 0 ∨ 23 < h
        · rw [if_pos hr] at hm
          exact ih acc m hacc hm
        · rw [if_neg hr] at hm
          exact ih _ m (mem_dictModify_forall P hacc (hb d)) hm

lemma hour_loop_keys :
    ∀ (rs : List FlightRecord) (acc m : List (Int × DelayTally)),
      hour_loop acc rs = some m → m.map Prod.fst = acc.map Prod.fst := by
  intro rs
  induction rs with
  | nil =>
    intro acc m hm
    rw [show hour_loop acc [] = some acc from rfl] at hm
    obtain rfl := Option.some_injective _ hm
    rfl
  | cons r rs ih =>
    intro acc m hm
    cases hd : delayValue r.DELAY with
    | none =>
      simp only [hour_loop_cons, hd] at hm
      exact Option.noConfusion hm
    | some d =>
      cases hk : hourKey r.DEPARTURE_TIME with
      | none =>
        simp only [hour_loop_cons, hd, hk] at hm
        exact ih acc m hm
      | some h =>
        simp only [hour_loop_cons, hd, hk] at hm
        by_cases hr : h < 0 ∨ 23 < h
        · rw [if_pos hr] at hm
          exact ih acc m hm
        · rw [if_neg hr] at hm
          rw [ih _ m hm, dictModify_keys]

lemma tallyLoop_isSome {K : Type} [DecidableEq K] (keyFn : FlightRecord → K) :
    ∀ (rs : List FlightRecord) (acc : List (K × DelayTally)),
      (∀ r ∈ rs, (delayValue r.DELAY).isSome = true) →
      (tallyLoop keyFn acc rs).isSome = true := by
  intro rs
  induction rs with
  | nil => intro acc _; rfl
  | cons r rs ih =>
    intro acc hrs
    have hd := hrs r (List.mem_cons_self r rs)
    cases hd2 : delayValue r.DELAY with
    | none => rw [hd2] at hd; exact Bool.noConfusion hd
    | some d =>
      rw [show tallyLoop keyFn acc (r :: rs) =
        (match delayValue r.DELAY with
          | none => none
          | some d => tallyLoop keyFn (countRecord acc (keyFn r) d) rs) from rfl, hd2]
      exact ih _ (fun q hq => hrs q (List.mem_cons_of_mem r hq))

lemma hour_loop_isSome :
    ∀ (rs : List FlightRecord) (acc : List (Int × DelayTally)),
      (∀ r ∈ rs, (delayValue r.DELAY).isSome = true) →
      (hour_loop acc rs).isSome = true := by
  intro rs
  induction rs with
  | nil => intro acc _; rfl
  | cons r rs ih =>
    intro acc hrs
    have hd := hrs r (List.mem_cons_self r rs)
    cases hd2 : delayValue r.DELAY with
    | none => rw [hd2] at hd; exact Bool.noConfusion hd
    | some d =>
      rw [hour_loop_cons]
      simp only [hd2]
      cases hk : hourKey r.DEPARTURE_TIME with
      | none =>
        simp only [hk]
        exact ih acc (fun q hq => hrs q (List.mem_cons_of_mem r hq))
      | some h =>
        simp only [hk]
        by_cases hr : h < 0 ∨ 23 < h
        · rw [if_pos hr]
          exact ih acc (fun q hq => hrs q (List.mem_cons_of_mem r hq))
        · rw [if_neg hr]
          exact ih _ (fun q hq => hrs q (List.mem_cons_of_mem r hq))

lemma snd_of_mem_hour_init {p : Int × DelayTally} (hp : p ∈ hour_delays_init) :
    p.2 = ⟨0, 0⟩ := by
  simp only [hour_delays_init, List.mem_map] at hp
  obtain ⟨h, _, rfl⟩ := hp
  rfl

lemma dictGet_hour_init (k : Int) : dictGet hour_delays_init k = ⟨0, 0⟩ := by
  unfold dictGet
  cases hf : hour_delays_init.find? (fun p => decide (p.1 = k)) with
  | none => rfl
  | some p => exact snd_of_mem_hour_init (List.mem_of_find?_eq_some hf)

/-! ### Claim theorems -/

/-- Claim C1: for every input record sequence and every aggregation
(by-airline, by-hour, by-route), every group key in the output tally
satisfies `delayed ≤ total`. -/
theorem claim_C1_delayed_le_total (rs : List FlightRecord) :
    (∀ m, airline_delays rs = some m → ∀ p ∈ m, p.2.delayed ≤ p.2.total) ∧
    (∀ m, route_delays rs = some m → ∀ p ∈ m, p.2.delayed ≤ p.2.total) ∧
    (∀ m, hour_delays rs = some m → ∀ p ∈ m, p.2.delayed ≤ p.2.total) := by
  have hb : ∀ (d : Int) (t : DelayTally),
      t.delayed ≤ t.total → (bumpTally d t).delayed ≤ (bumpTally d t).total := by
    intro d t h
    unfold bumpTally
    dsimp only
    by_cases hd : 0 < d
    · rw [if_pos hd]; omega
    · rw [if_neg hd]; omega
  have h0 : ∀ d : Int,
      (bumpTally d (⟨0, 0⟩ : DelayTally)).delayed ≤ (bumpTally d ⟨0, 0⟩).total :=
    fun d => hb d ⟨0, 0⟩ (Nat.le_refl 0)
  refine ⟨?_, ?_, ?_⟩
  · intro m hm
    exact tallyLoop_forall _ (fun t => t.delayed ≤ t.total) hb h0 rs [] m
      (by intro p hp; exact absurd hp (List.not_mem_nil p)) hm
  · intro m hm
    exact tallyLoop_forall _ (fun t => t.delayed ≤ t.total) hb h0 rs [] m
      (by intro p hp; exact absurd hp (List.not_mem_nil p)) hm
  · intro m hm
    refine hour_loop_forall (fun t => t.delayed ≤ t.total) hb rs hour_delays_init m ?_ hm
    intro p hp
    rw [snd_of_mem_hour_init hp]

/-- Witness for C1 at a concrete two-record input: the Delta group tallies
one delayed out of two. -/
theorem claim_C1_witness :
    (⟨2, 1⟩ : DelayTally).delayed ≤ (⟨2, 1⟩ : DelayTally).total :=
  (claim_C1_delayed_le_total
    [⟨"Delta", "ATL", "BOS", Value.vstr "0930", Value.vint 30⟩,
     ⟨"Delta", "JFK", "LAX", Value.vstr "1210", Value.vnone⟩]).1
    [("Delta", ⟨2, 1⟩)] rfl ("Delta", ⟨2, 1⟩) (by decide)

/-- Claim C2: the classifier is a pure total function on ratios with fixed
thresholds `0.20` and `0.40`, inclusive on the lower side of each tier, with
`0.19 ↦ Low (green)`, `0.20 ↦ Medium (yellow)`, `0.39 ↦ Medium (yellow)`,
`0.40 ↦ High (red)`, `1.0 ↦ High (red)`. -/
theorem claim_C2_classifier (r : ℚ) :
    (r < 0.2 → get_delay_color r = "green" ∧ delay_group r = "Low Delay") ∧
    (0.2 ≤ r → r < 0.4 → get_delay_color r = "yellow" ∧ delay_group r = "Medium Delay") ∧
    (0.4 ≤ r → get_delay_color r = "red" ∧ delay_group r = "High Delay") ∧
    (get_delay_color 0.19 = "green" ∧ get_delay_color 0.2 = "yellow" ∧
      get_delay_color 0.39 = "yellow" ∧ get_delay_color 0.4 = "red" ∧
      get_delay_color 1 = "red") := by
  refine ⟨?_, ?_, ?_, ?_⟩
  · intro h
    constructor
    · unfold get_delay_color
      rw [if_pos h]
    · unfold delay_group
      rw [if_pos h]
  · intro h1 h2
    have hn : ¬r < 0.2 := not_lt.mpr h1
    constructor
    · unfold get_delay_color
      rw [if_neg hn, if_pos h2]
    · unfold delay_group
      rw [if_neg hn, if_pos h2]
  · intro h
    have hn2 : ¬r < 0.4 := not_lt.mpr h
    have hn1 : ¬r < 0.2 := not_lt.mpr (le_trans (by norm_num) h)
    constructor
    · unfold get_delay_color
      rw [if_neg hn1, if_neg hn2]
    · unfold delay_group
      rw [if_neg hn1, if_neg hn2]
  · norm_num [get_delay_color]

/-- Witness for C2 at concrete ratios in each tier. -/
theorem claim_C2_witness :
    (get_delay_color 0.1 = "green" ∧ delay_group 0.1 = "Low Delay") ∧
    (get_delay_color 0.3 = "yellow" ∧ delay_group 0.3 = "Medium Delay") ∧
    (get_delay_color 0.5 = "red" ∧ delay_group 0.5 = "High Delay") :=
  ⟨(claim_C2_classifier 0.1).1 (by norm_num),
   (claim_C2_classifier 0.3).2.1 (by norm_num) (by norm_num),
   (claim_C2_classifier 0.5).2.2.1 (by norm_num)⟩

/-- Claim C4: in the by-hour aggregation, a record whose `DEPARTURE_TIME`
does not yield an integer hour in `0..23` is skipped entirely: the
accumulator is unchanged and the pass continues over the remaining
records. -/
theorem claim_C4_hour_skip (acc : List (Int × DelayTally)) (r : FlightRecord)
    (rs : List FlightRecord) (d : Int) (h1 : delayValue r.DELAY = some d)
    (h2 : hourSkip (hourKey r.DEPARTURE_TIME) = true) :
    hour_loop acc (r :: rs) = hour_loop acc rs := by
  rw [hour_loop_cons]
  simp only [h1]
  cases hk : hourKey r.DEPARTURE_TIME with
  | none => simp only [hk]
  | some h =>
    simp only [hk]
    have hr : h < 0 ∨ 23 < h := by
      rw [hk] at h2
      simpa [hourSkip] using h2
    rw [if_pos hr]

/-- Witness for C4: a record with an empty `DEPARTURE_TIME` leaves the
by-hour pass exactly where it was. -/
theorem claim_C4_witness :
    hour_loop hour_delays_init [⟨"AA", "ATL", "BOS", Value.vstr "", Value.vnone⟩] =
      hour_loop hour_delays_init [] :=
  claim_C4_hour_skip hour_delays_init ⟨"AA", "ATL", "BOS", Value.vstr "", Value.vnone⟩ [] 0
    rfl rfl

/-- Claim C5: a record whose `DELAY` field is missing/empty/falsy has its
delay normalized to `0`; counting a record into its group always increments
`total` by one and increments `delayed` exactly when the delay is strictly
positive. -/
theorem claim_C5_delay_default (v : Value) (t : DelayTally)
    (m : List (String × DelayTally)) (k : String) (d : Int) :
    (v.isTruthy = false → delayValue v = some 0) ∧
    (bumpTally d t).total = t.total + 1 ∧
    ((bumpTally d t).delayed = t.delayed + 1 ↔ 0 < d) ∧
    (¬0 < d → (bumpTally d t).delayed = t.delayed) ∧
    dictGet (countRecord m k d) k = bumpTally d (dictGet m k) := by
  refine ⟨?_, rfl, ⟨?_, ?_⟩, ?_, dictGet_countRecord m k d⟩
  · intro h
    simp [delayValue, h]
  · intro he
    by_contra hd
    unfold bumpTally at he
    dsimp only at he
    rw [if_neg hd] at he
    omega
  · intro hd
    unfold bumpTally
    dsimp only
    rw [if_pos hd]
  · intro hd
    unfold bumpTally
    dsimp only
    rw [if_neg hd]

/-- Witness for C5: a `None` delay is normalized to `0` and does not bump
the delayed count. -/
theorem claim_C5_witness :
    delayValue Value.vnone = some 0 ∧ (bumpTally 0 (⟨3, 1⟩ : DelayTally)).delayed = 1 :=
  ⟨(claim_C5_delay_default Value.vnone ⟨3, 1⟩ [] "Delta" 0).1 rfl,
   (claim_C5_delay_default Value.vnone ⟨3, 1⟩ [] "Delta" 0).2.2.2.1 (by decide)⟩

/-- Claim C6: when the underlying execution fails, `_execute_query` returns
the empty list instead of propagating the data-layer exception; on success
it returns the normalized row records. -/
theorem claim_C6_error_containment (o : QueryOutcome) :
    (∀ e, connectionExecute o = Except.error e → _execute_query o = []) ∧
    (∀ recs, connectionExecute o = Except.ok recs → _execute_query o = recs) := by
  constructor
  · intro e h
    unfold _execute_query
    rw [h]
  · intro recs h
    unfold _execute_query
    rw [h]

/-- Witness for C6: a failing query yields `[]`, a successful one yields the
zipped records. -/
theorem claim_C6_witness :
    _execute_query (QueryOutcome.sqlError "connection failed") = [] ∧
    _execute_query (QueryOutcome.success ["AIRLINE"] [[Value.vstr "Delta"]]) =
      [[("AIRLINE", Value.vstr "Delta")]] :=
  ⟨(claim_C6_error_containment (QueryOutcome.sqlError "connection failed")).1
     "connection failed" rfl,
   (claim_C6_error_containment (QueryOutcome.success ["AIRLINE"] [[Value.vstr "Delta"]])).2
     [[("AIRLINE", Value.vstr "Delta")]] rfl⟩

/-- Claim C3: the by-hour output always reports exactly the 24 hour keys
`0..23`, and each reported percentage is `delayed/total*100` when
`total > 0` and `0` when `total = 0` (never a division by zero). -/
theorem claim_C3_hour_output (rs : List FlightRecord) (m : List (Int × DelayTally))
    (out : List (Int × ℚ)) (h1 : hour_delays rs = some m)
    (h2 : hourPercentages rs = some out) :
    m.map Prod.fst = (List.range 24).map (fun n => (n : Int)) ∧
    out.map Prod.fst = (List.range 24).map (fun n => (n : Int)) ∧
    ∀ p ∈ out, ((dictGet m p.1).total = 0 → p.2 = 0) ∧
      (0 < (dictGet m p.1).total →
        p.2 = ((dictGet m p.1).delayed : ℚ) / ((dictGet m p.1).total : ℚ) * 100) := by
  have hinit : hour_delays_init.map Prod.fst = (List.range 24).map (fun n => (n : Int)) := by
    unfold hour_delays_init
    rw [List.map_map]
    exact List.map_congr_left (fun a _ => rfl)
  have hout : out = (List.range 24).map (fun h => ((h : Int),
      if 0 < (dictGet m (h : Int)).total then
        ((dictGet m (h : Int)).delayed : ℚ) / ((dictGet m (h : Int)).total : ℚ) * 100
      else 0)) := by
    unfold hourPercentages at h2
    rw [h1] at h2
    exact (Option.some_injective _ h2).symm
  refine ⟨(hour_loop_keys rs hour_delays_init m h1).trans hinit, ?_, ?_⟩
  · rw [hout, List.map_map]
    apply List.map_congr_left
    intro n _
    rfl
  · intro p hp
    rw [hout] at hp
    obtain ⟨n, _, hpn⟩ := List.mem_map.mp hp
    rw [← hpn]
    dsimp only
    constructor
    · intro htot
      rw [if_neg]
      rw [htot]
      exact lt_irrefl 0
    · intro htot
      rw [if_pos htot]

/-- Witness for C3 on the empty record sequence: the by-hour tally keys are
exactly `0..23`. -/
theorem claim_C3_witness :
    hour_delays_init.map Prod.fst = (List.range 24).map (fun n => (n : Int)) :=
  (claim_C3_hour_output [] hour_delays_init
      ((List.range 24).map (fun n => ((n : Int), (0 : ℚ)))) rfl
      (by
        rw [hourPercentages, show hour_delays [] = some hour_delays_init from rfl]
        simp [dictGet_hour_init])).1

/-- The record sequence of the C7 scenario: three `ATL → BOS` flights, one of
them delayed, and two `BOS → ATL` flights, none delayed. -/
def c7records : List FlightRecord :=
  [⟨"Delta", "ATL", "BOS", Value.vstr "0930", Value.vint 30⟩,
   ⟨"Delta", "ATL", "BOS", Value.vstr "1230", Value.vint 0⟩,
   ⟨"Delta", "ATL", "BOS", Value.vstr "0745", Value.vnone⟩,
   ⟨"United", "BOS", "ATL", Value.vstr "0930", Value.vint 0⟩,
   ⟨"United", "BOS", "ATL", Value.vstr "1845", Value.vint (-5)⟩]

/-- Claim C7: the by-route aggregation keys groups by the ordered pair
`(ORIGIN_AIRPORT, DESTINATION_AIRPORT)`: on three `A→B` records (one
delayed) and two `B→A` records (none delayed) it produces two separate
entries, `(A,B)` with percentage `100/3` (33.3%) and `(B,A)` with 0. -/
theorem claim_C7_route_direction :
    route_delays c7records =
      some [(("ATL", "BOS"), ⟨3, 1⟩), (("BOS", "ATL"), ⟨2, 0⟩)] ∧
    heatmap_routes c7records =
      some [(("ATL", "BOS"), 100 / 3), (("BOS", "ATL"), 0)] := by
  constructor
  · rfl
  · have h : route_delays c7records =
        some [(("ATL", "BOS"), ⟨3, 1⟩), (("BOS", "ATL"), ⟨2, 0⟩)] := rfl
    rw [heatmap_routes, h]
    norm_num

/-- A record whose `DELAY` value is a non-empty, non-numeric string:
`int("N/A")` raises `ValueError` in Python. -/
def c9bad : FlightRecord := ⟨"United", "SFO", "JFK", Value.vstr "0830", Value.vstr "N/A"⟩

/-- Counterexample to C9 as stated: a record with a non-empty, non-numeric
`DELAY` makes every aggregation pass abort (the `int(...)` call raises out
of the loop, modelled by `none`) instead of completing. -/
theorem claim_C9_counterexample :
    airline_delays [c9bad] = none ∧ route_delays [c9bad] = none ∧
    hour_delays [c9bad] = none :=
  ⟨rfl, rfl, rfl⟩

/-- Claim C9 as amended: the aggregation pass completes for every record
sequence in which each record's `DELAY` is falsy (missing/empty/zero) or
parses as an integer; only a truthy, non-numeric `DELAY` raises out of the
aggregation. -/
theorem claim_C9_amended (rs : List FlightRecord)
    (h : ∀ r ∈ rs, (delayValue r.DELAY).isSome = true) :
    (airline_delays rs).isSome = true ∧ (route_delays rs).isSome = true ∧
    (hour_delays rs).isSome = true :=
  ⟨tallyLoop_isSome _ rs [] h, tallyLoop_isSome _ rs [] h,
   hour_loop_isSome rs hour_delays_init h⟩

/-- Witness for the amended C9: a sequence mixing an integer delay, a numeric
string delay, an empty-string delay and a `None` delay completes in all
three aggregations. -/
theorem claim_C9_witness :
    (airline_delays
      [⟨"Delta", "ATL", "BOS", Value.vstr "0930", Value.vint 12⟩,
       ⟨"Delta", "ATL", "BOS", Value.vstr "1230", Value.vstr "15"⟩,
       ⟨"United", "BOS", "ATL", Value.vstr "xx", Value.vstr ""⟩,
       ⟨"United", "BOS", "ATL", Value.vstr "2200", Value.vnone⟩]).isSome = true ∧
    (route_delays
      [⟨"Delta", "ATL", "BOS", Value.vstr "0930", Value.vint 12⟩,
       ⟨"Delta", "ATL", "BOS", Value.vstr "1230", Value.vstr "15"⟩,
       ⟨"United", "BOS", "ATL", Value.vstr "xx", Value.vstr ""⟩,
       ⟨"United", "BOS", "ATL", Value.vstr "2200", Value.vnone⟩]).isSome = true ∧
    (hour_delays
      [⟨"Delta", "ATL", "BOS", Value.vstr "0930", Value.vint 12⟩,
       ⟨"Delta", "ATL", "BOS", Value.vstr "1230", Value.vstr "15"⟩,
       ⟨"United", "BOS", "ATL", Value.vstr "xx", Value.vstr ""⟩,
       ⟨"United", "BOS", "ATL", Value.vstr "2200", Value.vnone⟩]).isSome = true :=
  claim_C9_amended
    [⟨"Delta", "ATL", "BOS", Value.vstr "0930", Value.vint 12⟩,
     ⟨"Delta", "ATL", "BOS", Value.vstr "1230", Value.vstr "15"⟩,
     ⟨"United", "BOS", "ATL", Value.vstr "xx", Value.vstr ""⟩,
     ⟨"United", "BOS", "ATL", Value.vstr "2200", Value.vnone⟩]
    (by decide)

/-- Claim C10: in the by-airline and by-route aggregations a group is
created only when a record is counted into it, so every output group has
`total ≥ 1` and the percentage computation never divides by zero — while
the by-hour dictionary does start with zero-total groups. -/
theorem claim_C10_total_pos (rs : List FlightRecord) :
    (∀ m, airline_delays rs = some m →
      ∀ p ∈ m, 1 ≤ p.2.total ∧ ((p.2.total : ℚ) ≠ 0)) ∧
    (∀ m, route_delays rs = some m →
      ∀ p ∈ m, 1 ≤ p.2.total ∧ ((p.2.total : ℚ) ≠ 0)) ∧
    (∃ p ∈ hour_delays_init, p.2.total = 0) := by
  have hb : ∀ (d : Int) (t : DelayTally), 1 ≤ t.total → 1 ≤ (bumpTally d t).total := by
    intro d t _
    unfold bumpTally
    dsimp only
    omega
  have hb2 : ∀ (d : Int) (t : DelayTally), 1 ≤ (bumpTally d t).total := by
    intro d t
    unfold bumpTally
    dsimp only
    omega
  have hq : ∀ t : DelayTally, 1 ≤ t.total → ((t.total : ℚ) ≠ 0) := by
    intro t ht
    have h2 : t.total ≠ 0 := by omega
    exact_mod_cast h2
  refine ⟨?_, ?_, ?_⟩
  · intro m hm p hp
    have := tallyLoop_forall _ (fun t => 1 ≤ t.total) hb (fun d => hb2 d ⟨0, 0⟩) rs [] m
      (by intro q hqq; exact absurd hqq (List.not_mem_nil q)) hm p hp
    exact ⟨this, hq p.2 this⟩
  · intro m hm p hp
    have := tallyLoop_forall _ (fun t => 1 ≤ t.total) hb (fun d => hb2 d ⟨0, 0⟩) rs [] m
      (by intro q hqq; exact absurd hqq (List.not_mem_nil q)) hm p hp
    exact ⟨this, hq p.2 this⟩
  · exact ⟨((0 : Int), ⟨0, 0⟩), by decide, rfl⟩

/-- Witness for C10 at a concrete one-record input. -/
theorem claim_C10_witness :
    1 ≤ (⟨1, 1⟩ : DelayTally).total ∧ (((⟨1, 1⟩ : DelayTally).total : ℚ) ≠ 0) :=
  (claim_C10_total_pos [⟨"Delta", "ATL", "BOS", Value.vstr "0930", Value.vint 30⟩]).2.1
    [(("ATL", "BOS"), ⟨1, 1⟩)] rfl (("ATL", "BOS"), ⟨1, 1⟩) (by decide)

/-- Claim C8: a tallied route appears in the map-rendering output exactly
when both endpoint codes resolve in the airport index, and in either case it
still appears in the by-route percentage aggregation (the heatmap applies no
such filter). -/
theorem claim_C8_map_filter (rs : List FlightRecord) (aps : List AirportLoc)
    (m : List ((String × String) × DelayTally)) (h1 : route_delays rs = some m) :
    ∀ route ∈ m.map Prod.fst,
      ((∃ out, plot_map_polylines rs aps = some out ∧ ∃ e ∈ out, e.route = route) ↔
        (indexContains aps route.1 = true ∧ indexContains aps route.2 = true)) ∧
      ∃ hout, heatmap_routes rs = some hout ∧ ∃ q ∈ hout, q.1 = route := by
  intro route hroute
  obtain ⟨p0, hp0, hp0r⟩ := List.mem_map.mp hroute
  have hmap : plot_map_polylines rs aps = some (m.filterMap (fun p =>
      if indexContains aps p.1.1 && indexContains aps p.1.2 then
        some ⟨p.1, airportCoords aps p.1.1, airportCoords aps p.1.2,
              get_delay_color ((p.2.delayed : ℚ) / (p.2.total : ℚ)),
              delay_group ((p.2.delayed : ℚ) / (p.2.total : ℚ))⟩
      else none)) := by
    unfold plot_map_polylines
    rw [h1]
    rfl
  have hheat : heatmap_routes rs =
      some (m.map (fun p => (p.1, (p.2.delayed : ℚ) / (p.2.total : ℚ) * 100))) := by
    unfold heatmap_routes
    rw [h1]
    rfl
  constructor
  · constructor
    · rintro ⟨out, hout, e, he, her⟩
      rw [hmap] at hout
      have hEq := Option.some_injective _ hout
      rw [← hEq] at he
      obtain ⟨q, hq, hfq⟩ := List.mem_filterMap.mp he
      by_cases hc : (indexContains aps q.1.1 && indexContains aps q.1.2) = true
      · rw [if_pos hc] at hfq
        have he2 := Option.some_injective _ hfq
        have hqr : q.1 = route := by rw [← her, ← he2]
        rw [← hqr]
        exact (Bool.and_eq_true _ _).mp hc
      · rw [if_neg hc] at hfq
        exact Option.noConfusion hfq
    · rintro ⟨hc1, hc2⟩
      have hcond : (indexContains aps p0.1.1 && indexContains aps p0.1.2) = true := by
        rw [hp0r, hc1, hc2]
        rfl
      refine ⟨_, hmap, ?_⟩
      refine ⟨⟨p0.1, airportCoords aps p0.1.1, airportCoords aps p0.1.2,
        get_delay_color ((p0.2.delayed : ℚ) / (p0.2.total : ℚ)),
        delay_group ((p0.2.delayed : ℚ) / (p0.2.total : ℚ))⟩, ?_, hp0r⟩
      apply List.mem_filterMap.mpr
      refine ⟨p0, hp0, ?_⟩
      rw [if_pos hcond]
  · refine ⟨_, hheat, ?_⟩
    exact ⟨(p0.1, (p0.2.delayed : ℚ) / (p0.2.total : ℚ) * 100),
      List.mem_map.mpr ⟨p0, hp0, rfl⟩, hp0r⟩

/-- Records for the C8 witness: one route between two indexed airports and
one route whose destination code `XYZ` is missing from the index. -/
def c8records : List FlightRecord :=
  [⟨"Delta", "AAA", "BBB", Value.vstr "0900", Value.vint 5⟩,
   ⟨"Delta", "AAA", "XYZ", Value.vstr "1000", Value.vint 0⟩]

/-- Airport index for the C8 witness: `XYZ` is absent. -/
def c8airports : List AirportLoc := [⟨"AAA", 10, 20⟩, ⟨"BBB", 30, 40⟩]

/-- Witness for C8: with `XYZ` missing from the index, the route to `XYZ` is
dropped from map rendering but retained by the heatmap aggregation. -/
theorem claim_C8_witness :
    ((∃ out, plot_map_polylines c8records c8airports = some out ∧
        ∃ e ∈ out, e.route = ("AAA", "XYZ")) ↔
      (indexContains c8airports "AAA" = true ∧
        indexContains c8airports "XYZ" = true)) ∧
    ∃ hout, heatmap_routes c8records = some hout ∧ ∃ q ∈ hout, q.1 = ("AAA", "XYZ") :=
  claim_C8_map_filter c8records c8airports
    [(("AAA", "BBB"), ⟨1, 1⟩), (("AAA", "XYZ"), ⟨1, 0⟩)] rfl ("AAA", "XYZ") (by decide)

end SkySql
